import Mathlib

/-!
Shallow embedding of the Parallel Research Kernels OpenMP `Synch_p2p`
pipeline benchmark (`src/OPENMP/Synch_p2p/p2p.c`).

Grid values are modelled exactly: the C program stores small integers in
`double`s and performs only additions and subtractions on them, so the grid
is embedded as `Nat → Nat → Int`.  The relative-tolerance verification check
is embedded over `ℚ`.  The concurrent strip pipeline is embedded by its
deterministic data-flow linearization: for each column `j`, strip `w`
computes after strip `w-1` (the handoff-flag protocol enforces exactly this
order), so one iteration is the in-place fold over columns, strips, rows in
that order.
-/

namespace P2P

/-- A grid of exact values, indexed `(i, j)` like `ARRAY(i,j)` in the source. -/
abbrev Grid := Nat → Nat → Int

/-- Pointwise update of one grid cell. -/
def upd (g : Grid) (i0 j0 : Nat) (v : Int) : Grid :=
  fun i j => if i = i0 ∧ j = j0 then v else g i j

/-- One stencil update at `(i, j)`:
`ARRAY(i,j) = ARRAY(i-1,j) + ARRAY(i,j-1) - ARRAY(i-1,j-1)` (p2p.c line 225). -/
def relax (j : Nat) (g : Grid) (i : Nat) : Grid :=
  upd g i j (g (i - 1) j + g i (j - 1) - g (i - 1) (j - 1))

/-- Apply the stencil at column `j` to the listed rows, in order
(the inner `for i` loop of p2p.c line 224). -/
def sweepCol (g : Grid) (j : Nat) (rows : List Nat) : Grid :=
  rows.foldl (relax j) g

/-- Size of worker `ID`'s strip: `m/W`, plus one for `ID < m mod W`
(p2p.c lines 161-162). -/
def segSize (m W ID : Nat) : Nat :=
  m / W + if ID < m % W then 1 else 0

/-- First row of worker `ID`'s strip: `start[0] = 0`,
`start[ID] = end[ID-1] + 1` (p2p.c lines 159, 163). -/
def startIdx (m W : Nat) : Nat → Nat
  | 0 => 0
  | ID + 1 => (startIdx m W ID + segSize m W ID - 1) + 1

/-- Last row of worker `ID`'s strip: `end[ID] = start[ID] + segment_size - 1`
(p2p.c line 164). -/
def endIdx (m W ID : Nat) : Nat :=
  startIdx m W ID + segSize m W ID - 1

/-- The rows worker `w` actually relaxes:
`for (i=MAX(start[my_ID],1); i<=end[my_ID]; i++)` (p2p.c line 224). -/
def stripRows (m W w : Nat) : List Nat :=
  List.range' (max (startIdx m W w) 1) (endIdx m W w + 1 - max (startIdx m W w) 1)

/-- The columns of one iteration: `for (j=1; j<n; j++)` (p2p.c line 213). -/
def colsList (n : Nat) : List Nat := List.range' 1 (n - 1)

/-- The interior rows `1..m-1`, i.e. the union of all strips' relaxed rows. -/
def rowsList (m : Nat) : List Nat := List.range' 1 (m - 1)

/-- Column `j` of one iteration with `W` strips: strip `w` computes column `j`
only after strip `w-1` has (flag handoff, p2p.c lines 216-235), so the
data-flow order is strips in increasing order. -/
def sweepColW (m W j : Nat) (g : Grid) : Grid :=
  (List.range W).foldl (fun h w => sweepCol h j (stripRows m W w)) g

/-- The column loop of one iteration with `W` strips (p2p.c lines 213-236). -/
def sweepAllW (m n W : Nat) (g : Grid) : Grid :=
  (colsList n).foldl (fun h j => sweepColW m W j h) g

/-- Corner feedback after each iteration:
`ARRAY(0,0) = -ARRAY(m-1,n-1)` (p2p.c line 254). -/
def feedback (m n : Nat) (g : Grid) : Grid :=
  upd g 0 0 (-(g (m - 1) (n - 1)))

/-- One full iteration of the pipeline with `W` strips
(p2p.c lines 200-256, numeric effect). -/
def stepGridW (m n W : Nat) (g : Grid) : Grid :=
  feedback m n (sweepAllW m n W g)

/-- Initial grid after seeding (p2p.c lines 195-198): everything zeroed, then
row 0 gets `ARRAY(0,j) = j` and column 0 gets `ARRAY(i,0) = i`. -/
def initGrid : Grid :=
  fun i j => if j = 0 then (i : Int) else if i = 0 then (j : Int) else 0

/-- Grid contents after `K` iterations of the pipeline with `W` strips. -/
def gridAfterW (m n W : Nat) : Nat → Grid
  | 0 => initGrid
  | K + 1 => stepGridW m n W (gridAfterW m n W K)

/-- The collapsed (strip-free) column sweep, used as the common reduct of all
strip counts. -/
def sweepAllC (m n : Nat) (g : Grid) : Grid :=
  (colsList n).foldl (fun h j => sweepCol h j (rowsList m)) g

/-- One collapsed iteration. -/
def stepGridC (m n : Nat) (g : Grid) : Grid :=
  feedback m n (sweepAllC m n g)

/-- Grid contents after `K` collapsed iterations. -/
def gridAfterC (m n : Nat) : Nat → Grid
  | 0 => initGrid
  | K + 1 => stepGridC m n (gridAfterC m n K)

/-- Closed-form cell values of one sweep over a grid whose origin holds `c`,
whose column 0 holds the row index and whose row 0 holds the column index:
interior cells become `i + j - c`. -/
def solVal (c : Int) (i j : Nat) : Int :=
  if j = 0 then (if i = 0 then c else (i : Int))
  else if i = 0 then (j : Int)
  else (i : Int) + (j : Int) - c

/-! ## Whole-program model -/

/-- Observable outcome of one program run. -/
inductive RunResult where
  | configError : RunResult
  | numericError : RunResult
  | success : RunResult
deriving DecidableEq

/-- Two's-complement wrap of a 32-bit signed `int`, modelling the (wrapping)
behaviour of `total_length = m*n` at p2p.c line 140. -/
def wrap32 (x : Int) : Int :=
  (x + 2 ^ 31) % 2 ^ 32 - 2 ^ 31

/-- The verification tolerance `epsilon = 1.e-8` (p2p.c line 93). -/
def epsQ : ℚ := 1 / 100000000

/-- The relative deviation computed by the verification check
`abs(ARRAY(m-1,n-1)-corner_val)/corner_val` (p2p.c line 266); `abs` is the C
integer absolute value, and the difference of the exactly-represented values
is an integer. -/
def relDev (corner cv : Int) : ℚ :=
  ((corner - cv).natAbs : ℚ) / (cv : ℚ)

/-- Far-corner value after a run with the given (already validated) integer
parameters. -/
def finalCornerZ (m n W K : Int) : Int :=
  gridAfterW m.toNat n.toNat W.toNat K.toNat (m.toNat - 1) (n.toNat - 1)

/-- The whole program as a function of its parsed arguments, with the build
constants `MAX_THREADS` and `MEMWORDS` as parameters `maxT` and `memw`.
The cascade of checks mirrors p2p.c lines 118-151, and the verification
check mirrors lines 265-270.  The spawned thread count is modelled as equal
to the requested one. -/
def runProgram (maxT memw W K m n : Int) : RunResult :=
  if W < 1 ∨ maxT < W then .configError
  else if K < 1 then .configError
  else if m < 1 ∨ n < 1 then .configError
  else if (wrap32 (m * n)).tdiv n ≠ m ∨ memw < wrap32 (m * n) then .configError
  else if m < W then .configError
  else if epsQ < relDev (finalCornerZ m n W K) (K * (n + m - 2)) then .numericError
  else .success

/-- All the input checks of p2p.c lines 118-151 pass. -/
def validConfig (maxT memw W K m n : Int) : Prop :=
  1 ≤ W ∧ W ≤ maxT ∧ 1 ≤ K ∧ 1 ≤ m ∧ 1 ≤ n ∧
    (wrap32 (m * n)).tdiv n = m ∧ wrap32 (m * n) ≤ memw ∧ W ≤ m

instance (maxT memw W K m n : Int) : Decidable (validConfig maxT memw W K m n) := by
  unfold validConfig; infer_instance

/-! ## Timing harness and reporting -/

/-- Initial accumulator `(avgtime, mintime, maxtime) = (0.0, 366*24*3600, 0.0)`
(p2p.c lines 89-92). -/
def statsInit : ℚ × ℚ × ℚ := (0, 31622400, 0)

/-- One iteration of the timing accumulation
`if (iter>0 || iterations==1) { avgtime += t; mintime = MIN(..); maxtime = MAX(..) }`
(p2p.c lines 241-245). -/
def statsStep (iterations : Nat) (s : ℚ × ℚ × ℚ) (iter : Nat) (t : ℚ) : ℚ × ℚ × ℚ :=
  if 0 < iter ∨ iterations = 1 then (s.1 + t, min s.2.1 t, max s.2.2 t) else s

/-- Accumulated `(sum, min, max)` over all iteration samples `t 0 .. t (iterations-1)`. -/
def accumStats (iterations : Nat) (t : Nat → ℚ) : ℚ × ℚ × ℚ :=
  (List.range iterations).foldl (fun s iter => statsStep iterations s iter (t iter)) statsInit

/-- The reported average `avgtime/(double)(MAX(iterations-1,1))` (p2p.c line 279). -/
def avgReported (iterations : Nat) (t : Nat → ℚ) : ℚ :=
  (accumStats iterations t).1 / ((max (iterations - 1) 1 : Nat) : ℚ)

/-- The minimum iteration time retained by the harness. -/
def mintimeOf (iterations : Nat) (t : Nat → ℚ) : ℚ :=
  (accumStats iterations t).2.1

/-- The samples the harness keeps: the sample of iteration index 0 is dropped
unless exactly one iteration was requested. -/
def keptSamples (iterations : Nat) (t : Nat → ℚ) : List ℚ :=
  if iterations = 1 then [t 0] else (List.range' 1 (iterations - 1)).map t

/-- The throughput printed at p2p.c line 281:
`1.0E-06 * 2 * ((double)((m-1)*(n-1)))/mintime`. -/
def mflopsRate (m n : Nat) (mintime : ℚ) : ℚ :=
  (1 / 1000000) * 2 * (((m - 1) * (n - 1) : Nat) : ℚ) / mintime

/-- The verbose synchronization rate printed at p2p.c lines 274-275:
`((float)((n-1)*(nthread-1)))/mintime`. -/
def syncRate (n W : Nat) (mintime : ℚ) : ℚ :=
  (((n - 1) * (W - 1) : Nat) : ℚ) / mintime

/-- The final output line built by the two `printf`s at p2p.c lines 280-282,
with the four numbers abstracted as already-rendered strings. -/
def reportLine (r a mn mx : String) : String :=
  ("Rate (MFlops/s): " ++ r ++ ", Avg time (s): " ++ a ++ ", Min time (s): " ++ mn) ++
    (", Max time (s): " ++ mx ++ "\n")

/-! ## Partitioner lemmas -/

lemma segSize_pos {m W : Nat} (hW : 1 ≤ W) (hWm : W ≤ m) (ID : Nat) :
    1 ≤ segSize m W ID := by
  have : 1 ≤ m / W := (Nat.one_le_div_iff hW).mpr hWm
  unfold segSize; omega

lemma startIdx_succ {m W : Nat} (hW : 1 ≤ W) (hWm : W ≤ m) (ID : Nat) :
    startIdx m W (ID + 1) = startIdx m W ID + segSize m W ID := by
  have := segSize_pos hW hWm ID
  show (startIdx m W ID + segSize m W ID - 1) + 1 = _
  omega

lemma startIdx_closed {m W : Nat} (hW : 1 ≤ W) (hWm : W ≤ m) :
    ∀ ID, startIdx m W ID = ID * (m / W) + min ID (m % W) := by
  intro ID
  induction ID with
  | zero => simp [startIdx]
  | succ k ih =>
    rw [startIdx_succ hW hWm, ih, Nat.succ_mul]
    unfold segSize
    split <;> omega

lemma startIdx_top {m W : Nat} (hW : 1  ≤ W) (hWm : W ≤ m) :
    startIdx m W W = m := by
  rw [startIdx_closed hW hWm]
  have h1 : m % W < W := Nat.mod_lt _ hW
  have h2 : W * (m / W) + m % W = m := Nat.div_add_mod m W
  omega

lemma startIdx_mono {m W : Nat} (hW : 1 ≤ W) (hWm : W ≤ m) {a b : Nat} (h : a ≤ b) :
    startIdx m W a ≤ startIdx m W b := by
  rw [startIdx_closed hW hWm, startIdx_closed hW hWm]
  exact Nat.add_le_add (Nat.mul_le_mul_right _ h) (min_le_min h le_rfl)

lemma startIdx_pos {m W : Nat} (hW : 1 ≤ W) (hWm : W ≤ m) {w : Nat} (hw : 1 ≤ w) :
    1 ≤ startIdx m W w := by
  have h1 : 1 ≤ startIdx m W 1 := by
    rw [startIdx_closed hW hWm]
    have : 1 ≤ m / W := (Nat.one_le_div_iff hW).mpr hWm
    omega
  exact le_trans h1 (startIdx_mono hW hWm hw)

/-- C2: for every `m ≥ 1` and `1 ≤ W ≤ m`, the partitioner produces `W`
contiguous, pairwise disjoint ranges `[start_w, end_w]` that cover `[0, m-1]`
exactly, whose sizes differ pairwise by at most one, with the larger ranges
(one extra row) going exactly to the workers with `w < m mod W`, so sizes are
non-increasing in the worker index. -/
theorem c2_partition (m W : Nat) (hW : 1 ≤ W) (hWm : W ≤ m) :
    startIdx m W 0 = 0
    ∧ endIdx m W (W - 1) = m - 1
    ∧ (∀ w, startIdx m W (w + 1) = endIdx m W w + 1)
    ∧ (∀ w, endIdx m W w + 1 - startIdx m W w = segSize m W w)
    ∧ (∀ w w', w < w' → endIdx m W w < startIdx m W w')
    ∧ (∀ w w', segSize m W w ≤ segSize m W w' + 1)
    ∧ (∀ w, segSize m W w = m / W + if w < m % W then 1 else 0)
    ∧ (∀ w w', w ≤ w' → segSize m W w' ≤ segSize m W w) := by
  have hseg := segSize_pos hW hWm
  refine ⟨rfl, ?_, fun w => rfl, fun w => ?_, fun w w' hlt => ?_, fun w w' => ?_,
    fun w => rfl, fun w w' hle => ?_⟩
  · have h1 := startIdx_succ hW hWm (W - 1)
    have h2 : W - 1 + 1 = W := by omega
    rw [h2] at h1
    rw [startIdx_top hW hWm] at h1
    have := hseg (W - 1)
    unfold endIdx
    omega
  · have := hseg w
    unfold endIdx
    omega
  · have h1 := startIdx_succ hW hWm w
    have h2 := startIdx_mono hW hWm (show w + 1 ≤ w' by omega)
    have := hseg w
    unfold endIdx
    omega
  · unfold segSize
    split <;> split <;> omega
  · unfold segSize
    split <;> split <;> omega

/-- C2 witness: the partition of `m = 7` rows over `W = 3` workers covers
`[0,6]` with strips `[0,2], [3,4], [5,6]`. -/
theorem c2_witness :
    ((1 ≤ 3 ∧ 3 ≤ 7) ∧ endIdx 7 3 2 = 6) ∧
      (startIdx 7 3 1 = 3 ∧ startIdx 7 3 2 = 5 ∧ segSize 7 3 0 = 3) := by
  refine ⟨⟨⟨by decide, by decide⟩, ?_⟩, by decide, by decide, by decide⟩
  exact (c2_partition 7 3 (by decide) (by decide)).2.1

/-! ## Basic sweep lemmas -/

lemma relax_apply_ne {j : Nat} (g : Grid) {r i' j' : Nat} (h : ¬(i' = r ∧ j' = j)) :
    relax j g r i' j' = g i' j' := by
  simp only [relax, upd, if_neg h]

lemma relax_apply_self (j : Nat) (g : Grid) (r : Nat) :
    relax j g r r j = g (r - 1) j + g r (j - 1) - g (r - 1) (j - 1) := by
  simp [relax, upd]

lemma sweepCol_pres {j : Nat} :
    ∀ (rows : List Nat) (g : Grid) {i' j' : Nat}, (i' ∉ rows ∨ j' ≠ j) →
      sweepCol g j rows i' j' = g i' j' := by
  intro rows
  induction rows with
  | nil => intro g i' j' _; rfl
  | cons r rs ih =>
    intro g i' j' h
    show sweepCol (relax j g r) j rs i' j' = g i' j'
    have h1 : i' ∉ rs ∨ j' ≠ j := by
      rcases h with h | h
      · exact Or.inl (fun hm => h (List.mem_cons_of_mem _ hm))
      · exact Or.inr h
    rw [ih _ h1]
    refine relax_apply_ne g fun hc => ?_
    rcases h with h | h
    · exact h (hc.1 ▸ List.mem_cons_self r rs)
    · exact h hc.2

/-- In-place relaxation of rows `a..a+k-1` of column `j` telescopes: each
updated cell equals `g (a-1) j + g i (j-1) - g (a-1) (j-1)` in terms of the
pre-sweep cells. -/
lemma sweepCol_range' {j : Nat} (hj : 1 ≤ j) :
    ∀ (k a : Nat) (g : Grid), 1 ≤ a → ∀ i, a ≤ i → i < a + k →
      sweepCol g j (List.range' a k) i j
        = g (a - 1) j + g i (j - 1) - g (a - 1) (j - 1) := by
  intro k
  induction k with
  | zero => intro a g _ i h1 h2; omega
  | succ k ih =>
    intro a g ha i hi1 hi2
    rw [List.range'_succ]
    show sweepCol (relax j g a) j (List.range' (a + 1) k) i j = _
    have hj' : j - 1 ≠ j := by omega
    rcases eq_or_lt_of_le hi1 with heq | hlt
    · subst heq
      rw [sweepCol_pres _ _ (Or.inl (by
        intro hm
        rcases List.mem_range'_1.mp hm with ⟨h', _⟩
        omega))]
      exact relax_apply_self j g a
    · rw [ih (a + 1) (relax j g a) (by omega) i (by omega) (by omega)]
      rw [Nat.add_sub_cancel]
      rw [relax_apply_self]
      rw [relax_apply_ne g (by exact fun hc => hj' hc.2)]
      rw [relax_apply_ne g (by exact fun hc => hj' hc.2)]
      ring

/-! ## Collapsing the strip decomposition -/

lemma foldl_sweepCol_flatten (j : Nat) :
    ∀ (ws : List Nat) (f : Nat → List Nat) (g : Grid),
      ws.foldl (fun h w => sweepCol h j (f w)) g = sweepCol g j ((ws.map f).flatten) := by
  intro ws
  induction ws with
  | nil => intro f g; rfl
  | cons w rest ih =>
    intro f g
    show rest.foldl _ (sweepCol g j (f w)) = _
    rw [ih]
    show _ = sweepCol g j (f w ++ (rest.map f).flatten)
    simp only [sweepCol, List.foldl_append]

lemma stripRows_flatten {m W : Nat} (hW : 1 ≤ W) (hWm : W ≤ m) :
    ∀ t, t ≤ W → ((List.range t).map (stripRows m W)).flatten
      = List.range' 1 (startIdx m W t - 1) := by
  intro t
  induction t with
  | zero => simp [startIdx]
  | succ t ih =>
    intro ht
    rw [List.range_succ, List.map_append, List.flatten_append, ih (by omega)]
    simp only [List.map_cons, List.map_nil, List.flatten_cons, List.flatten_nil,
      List.append_nil]
    have hseg := segSize_pos hW hWm t
    have hsucc := startIdx_succ hW hWm t
    have hstep : stripRows m W t
        = List.range' (max (startIdx m W t) 1)
            (startIdx m W (t + 1) - max (startIdx m W t) 1) := rfl
    have hst1 : startIdx m W t - 1 = max (startIdx m W t) 1 - 1 := by omega
    rw [hstep, hst1]
    have happ := List.range'_append 1 (max (startIdx m W t) 1 - 1)
      (startIdx m W (t + 1) - max (startIdx m W t) 1) 1
    rw [one_mul] at happ
    have h1 : 1 + (max (startIdx m W t) 1 - 1) = max (startIdx m W t) 1 := by omega
    rw [h1] at happ
    rw [happ]
    congr 1
    omega

/-- With `1 ≤ W ≤ m`, processing the strips of column `j` in handoff order is
the same as relaxing the whole interior row range `1..m-1` in order. -/
lemma sweepColW_collapse {m W : Nat} (hW : 1 ≤ W) (hWm : W ≤ m) (j : Nat) (g : Grid) :
    sweepColW m W j g = sweepCol g j (rowsList m) := by
  unfold sweepColW
  rw [foldl_sweepCol_flatten, stripRows_flatten hW hWm W le_rfl, startIdx_top hW hWm]
  rfl

lemma sweepAllW_collapse {m W : Nat} (hW : 1 ≤ W) (hWm : W ≤ m) (n : Nat) (g : Grid) :
    sweepAllW m n W g = sweepAllC m n g := by
  unfold sweepAllW sweepAllC
  induction colsList n generalizing g with
  | nil => rfl
  | cons j rest ih =>
    simp only [List.foldl_cons]
    rw [sweepColW_collapse hW hWm, ih]

/-- With `1 ≤ W ≤ m`, the whole run is independent of the strip count. -/
lemma gridAfterW_collapse {m W : Nat} (hW : 1 ≤ W) (hWm : W ≤ m) (n : Nat) :
    ∀ K, gridAfterW m n W K = gridAfterC m n K := by
  intro K
  induction K with
  | zero => rfl
  | succ K ih =>
    show stepGridW m n W (gridAfterW m n W K) = stepGridC m n (gridAfterC m n K)
    rw [ih]
    unfold stepGridW stepGridC
    rw [sweepAllW_collapse hW hWm]

/-! ## Closed form of the sweep -/

lemma foldCols_pres (m i' j' : Nat) (h : i' = 0 ∨ j' = 0) :
    ∀ (cols : List Nat), (∀ j ∈ cols, 1 ≤ j) → ∀ g : Grid,
      cols.foldl (fun h j => sweepCol h j (rowsList m)) g i' j' = g i' j' := by
  intro cols
  induction cols with
  | nil => intro _ g; rfl
  | cons j0 rest ih =>
    intro hc g
    show rest.foldl _ (sweepCol g j0 (rowsList m)) i' j' = g i' j'
    rw [ih (fun j hj => hc j (List.mem_cons_of_mem _ hj))]
    have hj0 : 1 ≤ j0 := hc j0 (List.mem_cons_self _ _)
    rcases h with h | h
    · subst h
      exact sweepCol_pres _ _ (Or.inl fun hm => by
        rcases List.mem_range'_1.mp hm with ⟨h1, _⟩; omega)
    · subst h
      exact sweepCol_pres _ _ (Or.inr (by omega))

lemma mem_rowsList {m i : Nat} (h : i ∈ rowsList m) : 1 ≤ i ∧ i ≤ m - 1 := by
  rcases List.mem_range'_1.mp h with ⟨h1, h2⟩
  omega

/-- One column of the sweep turns column `j-1`'s closed-form values into
column `j`'s. -/
lemma sweepCol_solVal {m j : Nat} (hj : 1 ≤ j) (c : Int) (g : Grid)
    (hprev : ∀ i, i ≤ m - 1 → g i (j - 1) = solVal c i (j - 1))
    (htop : g 0 j = (j : Int)) :
    ∀ i, i ≤ m - 1 → sweepCol g j (rowsList m) i j = solVal c i j := by
  intro i hi
  rcases Nat.eq_zero_or_pos i with rfl | hpos
  · rw [sweepCol_pres _ _ (Or.inl fun hm => by
      rcases List.mem_range'_1.mp hm with ⟨h1, _⟩; omega)]
    rw [htop]
    simp [solVal, show j ≠ 0 by omega]
  · have hr : rowsList m = List.range' 1 (m - 1) := rfl
    rw [hr, sweepCol_range' hj (m - 1) 1 g le_rfl i hpos (by omega)]
    have h10 : (1 : Nat) - 1 = 0 := rfl
    rw [h10, htop, hprev 0 (by omega), hprev i hi]
    simp only [solVal]
    split_ifs <;> omega

/-- The column loop computes the closed-form values on all processed columns. -/
lemma sweepCols_solVal (m : Nat) (c : Int) :
    ∀ (t : Nat) (g : Grid),
      (∀ i, i ≤ m - 1 → g i 0 = solVal c i 0) →
      (∀ j, 1 ≤ j → g 0 j = (j : Int)) →
      ∀ i, i ≤ m - 1 → ∀ j, j ≤ t →
        ((List.range' 1 t).foldl (fun h j => sweepCol h j (rowsList m)) g) i j
          = solVal c i j := by
  intro t
  induction t with
  | zero =>
    intro g h0 _ i hi j hj
    have hj0 : j = 0 := by omega
    subst hj0
    exact h0 i hi
  | succ t ih =>
    intro g h0 htop i hi j hj
    have hconcat : List.range' 1 (t + 1) = List.range' 1 t ++ [t + 1] := by
      have h1 : 1 + 1 * t = t + 1 := by omega
      rw [List.range'_concat, h1]
    rw [hconcat, List.foldl_append]
    simp only [List.foldl_cons, List.foldl_nil]
    rcases Nat.lt_or_ge j (t + 1) with hjt | hjt
    · rw [sweepCol_pres _ _ (Or.inr (by omega))]
      exact ih g h0 htop i hi j (by omega)
    · have hje : j = t + 1 := by omega
      subst hje
      refine sweepCol_solVal (by omega) c _ ?_ ?_ i hi
      · intro i' hi'
        have hsub : t + 1 - 1 = t := rfl
        rw [hsub]
        exact ih g h0 htop i' hi' t le_rfl
      · rw [foldCols_pres m 0 (t + 1) (Or.inl rfl) _
          (fun j' hj' => (List.mem_range'_1.mp hj').1)]
        exact htop (t + 1) (by omega)

/-- One full iteration (sweep plus corner feedback) maps a grid with origin
seed `c` to one with origin seed `-((m-1)+(n-1)-c)`, and produces the far
corner `(m-1)+(n-1)-c`. -/
lemma stepGridC_inv {m n : Nat} (hm : 2 ≤ m) (hn : 2 ≤ n) (c : Int) (g : Grid)
    (h0 : ∀ i, i ≤ m - 1 → g i 0 = solVal c i 0)
    (htop : ∀ j, 1 ≤ j → g 0 j = (j : Int)) :
    (∀ i, i ≤ m - 1 →
        stepGridC m n g i 0 = solVal (-(((m:Int) - 1) + ((n:Int) - 1) - c)) i 0)
    ∧ (∀ j, 1 ≤ j → stepGridC m n g 0 j = (j : Int))
    ∧ stepGridC m n g (m - 1) (n - 1) = ((m:Int) - 1) + ((n:Int) - 1) - c := by
  have hcols : ∀ j' ∈ colsList n, 1 ≤ j' := fun j' hj' => (List.mem_range'_1.mp hj').1
  have hS : ∀ i, i ≤ m - 1 → ∀ j, j ≤ n - 1 → sweepAllC m n g i j = solVal c i j :=
    sweepCols_solVal m c (n - 1) g h0 htop
  have hSr : ∀ j, sweepAllC m n g 0 j = g 0 j :=
    fun j => foldCols_pres m 0 j (Or.inl rfl) _ hcols g
  have hSc : ∀ i, sweepAllC m n g i 0 = g i 0 :=
    fun i => foldCols_pres m i 0 (Or.inr rfl) _ hcols g
  have hcorner : sweepAllC m n g (m - 1) (n - 1) = ((m:Int) - 1) + ((n:Int) - 1) - c := by
    rw [hS (m - 1) le_rfl (n - 1) le_rfl]
    simp only [solVal]
    split_ifs <;> omega
  refine ⟨?_, ?_, ?_⟩
  · intro i hi
    simp only [stepGridC, feedback, upd]
    rcases Nat.eq_zero_or_pos i with rfl | hpos
    · rw [if_pos ⟨rfl, trivial⟩, hcorner]
      simp [solVal]
    · rw [if_neg (fun hc => absurd hc.1 (show i ≠ 0 by omega)), hSc, h0 i hi]
      simp [solVal, show i ≠ 0 by omega]
  · intro j hjpos
    simp only [stepGridC, feedback, upd]
    rw [if_neg (fun hc => absurd hc.2 (show j ≠ 0 by omega)), hSr, htop j hjpos]
  · simp only [stepGridC, feedback, upd]
    rw [if_neg (fun hc => absurd hc.1 (show m - 1 ≠ 0 by omega)), hcorner]

/-- After `K` iterations the origin holds `-K*(m+n-2)`, row 0 is intact and
the far corner holds `K*(m+n-2)`. -/
lemma gridAfterC_closed {m n : Nat} (hm : 2 ≤ m) (hn : 2 ≤ n) :
    ∀ K : Nat,
      (∀ i, i ≤ m - 1 →
          gridAfterC m n K i 0 = solVal (-(K:Int) * ((m:Int) + (n:Int) - 2)) i 0)
      ∧ (∀ j, 1 ≤ j → gridAfterC m n K 0 j = (j : Int))
      ∧ gridAfterC m n K (m - 1) (n - 1) = (K:Int) * ((m:Int) + (n:Int) - 2) := by
  intro K
  induction K with
  | zero =>
    refine ⟨?_, ?_, ?_⟩
    · intro i _
      rcases Nat.eq_zero_or_pos i with rfl | hpos
      · simp [gridAfterC, initGrid, solVal]
      · simp [gridAfterC, initGrid, solVal, show i ≠ 0 by omega]
    · intro j hj
      simp [gridAfterC, initGrid, show j ≠ 0 by omega]
    · simp [gridAfterC, initGrid, solVal, show m - 1 ≠ 0 by omega,
        show n - 1 ≠ 0 by omega]
  | succ K ih =>
    obtain ⟨h0, htop, _⟩ := ih
    obtain ⟨h0', htop', hcorner'⟩ := stepGridC_inv hm hn _ _ h0 htop
    have hc' : -(((m:Int) - 1) + ((n:Int) - 1) - -(K:Int) * ((m:Int) + (n:Int) - 2))
        = -((K:Int) + 1) * ((m:Int) + (n:Int) - 2) := by ring
    refine ⟨?_, htop', ?_⟩
    · intro i hi
      have hv := h0' i hi
      rw [hc'] at hv
      show stepGridC m n (gridAfterC m n K) i 0 = _
      rw [hv]
      norm_cast
    · show stepGridC m n (gridAfterC m n K) (m - 1) (n - 1) = _
      rw [hcorner']
      push_cast
      ring

/-! ## Cell-level update lemmas and boundary preservation -/

lemma upd_self (g : Grid) (i0 j0 : Nat) (v : Int) : upd g i0 j0 v i0 j0 = v := by
  simp [upd]

lemma upd_ne (g : Grid) (i0 j0 : Nat) (v : Int) {i j : Nat} (h : ¬(i = i0 ∧ j = j0)) :
    upd g i0 j0 v i j = g i j := by
  simp only [upd, if_neg h]

/-- With a single column (`n = 1`) the column loop is empty, so only the corner
feedback runs; cell `(m-1, 0)` keeps its seeded value `m-1` forever. -/
lemma gridAfterW_cols1 (m W : Nat) (hm : 1 ≤ m) :
    ∀ K, gridAfterW m 1 W K (m - 1) 0 = (m : Int) - 1 := by
  intro K
  induction K with
  | zero =>
    show initGrid (m - 1) 0 = _
    simp only [initGrid, if_pos rfl]
    rw [Nat.cast_sub hm, Nat.cast_one]
    simp
  | succ K ih =>
    show feedback m 1 (sweepAllW m 1 W (gridAfterW m 1 W K)) (m - 1) 0 = _
    have hs : sweepAllW m 1 W (gridAfterW m 1 W K) = gridAfterW m 1 W K := rfl
    rw [hs]
    unfold feedback
    have h11 : (1 : Nat) - 1 = 0 := rfl
    rw [h11]
    by_cases hc : m - 1 = 0 ∧ (0 : Nat) = 0
    · have hm1 : m = 1 := by omega
      rw [hc.1] at ih ⊢
      rw [upd_self, ih]
      omega
    · rw [upd_ne _ _ _ _ hc]
      exact ih

/-- Row 0 keeps its seeded values `j` across every iteration: the compute
loop never writes row 0 and the feedback writes only the origin. -/
lemma gridAfterC_row0 (m n : Nat) : ∀ K j, 1 ≤ j → gridAfterC m n K 0 j = (j : Int) := by
  intro K
  induction K with
  | zero =>
    intro j hj
    simp [gridAfterC, initGrid, show j ≠ 0 by omega]
  | succ K ih =>
    intro j hj
    show stepGridC m n (gridAfterC m n K) 0 j = _
    unfold stepGridC feedback
    rw [upd_ne _ _ _ _ (fun hc => absurd hc.2 (show j ≠ 0 by omega))]
    have hp : sweepAllC m n (gridAfterC m n K) 0 j = gridAfterC m n K 0 j :=
      foldCols_pres m 0 j (Or.inl rfl) (colsList n)
        (fun j' hj' => (List.mem_range'_1.mp hj').1) _
    rw [hp]
    exact ih j hj

/-- Column 0 keeps its seeded values `i` (for `i ≥ 1`) across every iteration. -/
lemma gridAfterC_col0 (m n : Nat) : ∀ K i, 1 ≤ i → gridAfterC m n K i 0 = (i : Int) := by
  intro K
  induction K with
  | zero =>
    intro i hi
    simp [gridAfterC, initGrid]
  | succ K ih =>
    intro i hi
    show stepGridC m n (gridAfterC m n K) i 0 = _
    unfold stepGridC feedback
    rw [upd_ne _ _ _ _ (fun hc => absurd hc.1 (show i ≠ 0 by omega))]
    have hp : sweepAllC m n (gridAfterC m n K) i 0 = gridAfterC m n K i 0 :=
      foldCols_pres m i 0 (Or.inr rfl) (colsList n)
        (fun j' hj' => (List.mem_range'_1.mp hj').1) _
    rw [hp]
    exact ih i hi

/-! ## Program-level lemmas -/

lemma relDev_self (x : Int) : relDev x x = 0 := by
  simp [relDev]

lemma epsQ_pos : (0 : ℚ) < epsQ := by
  norm_num [epsQ]

/-- Given all input checks pass, the run reduces to the verification check. -/
lemma runProgram_of_valid {maxT memw W K m n : Int} (h : validConfig maxT memw W K m n) :
    runProgram maxT memw W K m n
      = if epsQ < relDev (finalCornerZ m n W K) (K * (n + m - 2))
          then RunResult.numericError else RunResult.success := by
  obtain ⟨h1, h2, h3, h4, h5, h6, h7, h8⟩ := h
  have hc4 : ¬((wrap32 (m * n)).tdiv n ≠ m ∨ memw < wrap32 (m * n)) := by
    push_neg
    exact ⟨h6, h7⟩
  unfold runProgram
  rw [if_neg (by omega), if_neg (by omega), if_neg (by omega), if_neg hc4,
    if_neg (by omega)]

lemma wrap32_lt (x : Int) : wrap32 x < 2 ^ 31 := by
  unfold wrap32
  have h2 := Int.emod_lt_of_pos (x + 2 ^ 31) (show (0:Int) < 2 ^ 32 by norm_num)
  have e1 : (2:Int) ^ 32 = 4294967296 := by norm_num
  have e2 : (2:Int) ^ 31 = 2147483648 := by norm_num
  omega

lemma wrap32_eq_self {x : Int} (h1 : -(2 ^ 31) ≤ x) (h2 : x < 2 ^ 31) : wrap32 x = x := by
  unfold wrap32
  have e1 : (2:Int) ^ 32 = 4294967296 := by norm_num
  have e2 : (2:Int) ^ 31 = 2147483648 := by norm_num
  rw [Int.emod_eq_of_lt (by omega) (by omega)]
  omega

/-- If the true product `m*n` exceeds what the wrapped 32-bit value can hold,
the division check `total_length/n != m` of p2p.c line 141 fires. -/
lemma tdiv_ne_of_overflow {t m n : Int} (hm : 1 ≤ m) (hn : 1 ≤ n)
    (ht : t < m * n) : t.tdiv n ≠ m := by
  intro he
  rcases le_or_lt t 0 with h0 | h0
  · have hneg : 0 ≤ -t := by omega
    have hdiv : 0 ≤ (-t).tdiv n := Int.tdiv_nonneg hneg (by omega)
    rw [Int.neg_tdiv] at hdiv
    omega
  · have heq : t.tdiv n = t / n := Int.tdiv_eq_ediv (by omega) (by omega)
    rw [heq] at he
    have hmul : t / n * n ≤ t := Int.ediv_mul_le t (by omega)
    rw [he] at hmul
    omega

/-- With one row (`m = 1`) and at least two columns, the far corner sits on
row 0 and keeps its seeded value `n - 1` across every iteration. -/
lemma finalCornerZ_m1 {W K n : Int} (hW1 : 1 ≤ W) (hWm : W ≤ 1) (hn : 2 ≤ n)
    (hK : 1 ≤ K) : finalCornerZ 1 n W K = n - 1 := by
  unfold finalCornerZ
  have hW' : W.toNat = 1 := by omega
  have h1 : (1:Int).toNat = 1 := rfl
  rw [hW', h1, show (1:Nat) - 1 = 0 from rfl]
  rw [gridAfterW_collapse le_rfl le_rfl]
  rw [gridAfterC_row0 1 n.toNat K.toNat (n.toNat - 1) (by omega)]
  omega

lemma relDev_eq_abs (x y : Int) :
    relDev x y = |(x : ℚ) - (y : ℚ)| / (y : ℚ) := by
  unfold relDev
  rw [Int.cast_natAbs, Int.cast_abs]
  push_cast
  ring_nf

/-- A corner stuck at its seeded value `x ≥ 1` deviates from the expected
`K*x` by `(K-1)/K ≥ 1/2`, far beyond the `1e-8` tolerance, whenever `K ≥ 2`. -/
lemma relDev_scaled {x K : Int} (hx : 1 ≤ x) (hK : 2 ≤ K) :
    epsQ < relDev x (K * x) := by
  rw [relDev_eq_abs]
  have hxQ : (1:ℚ) ≤ (x:ℚ) := by exact_mod_cast hx
  have hKQ : (2:ℚ) ≤ (K:ℚ) := by exact_mod_cast hK
  have hxpos : (0:ℚ) < (x:ℚ) := by linarith
  push_cast
  have hprod : (0:ℚ) ≤ ((K:ℚ) - 1) * (x:ℚ) := by
    have ha : (0:ℚ) ≤ (K:ℚ) - 1 := by linarith
    have hb : (0:ℚ) ≤ (x:ℚ) := by linarith
    exact mul_nonneg ha hb
  have hnonpos : (x:ℚ) - (K:ℚ) * (x:ℚ) ≤ 0 := by nlinarith
  have habs : |(x:ℚ) - (K:ℚ) * (x:ℚ)| = ((K:ℚ) - 1) * (x:ℚ) := by
    rw [abs_of_nonpos hnonpos]
    ring
  have hden : (0:ℚ) < (K:ℚ) * (x:ℚ) := mul_pos (by linarith) hxpos
  rw [habs, lt_div_iff₀ hden]
  have hinner : (0:ℚ) < (1 - epsQ) * (K:ℚ) - 1 := by
    have he : epsQ = 1 / 100000000 := rfl
    rw [he]
    linarith
  nlinarith [mul_pos hxpos hinner]

/-- Over iteration indices that are all positive, the timing fold
unconditionally accumulates sum, minimum and maximum. -/
lemma statsFold_pos (iterations : Nat) (t : Nat → ℚ) :
    ∀ (l : List Nat), (∀ x ∈ l, 0 < x) → ∀ s : ℚ × ℚ × ℚ,
      l.foldl (fun s iter => statsStep iterations s iter (t iter)) s
        = (s.1 + (l.map t).sum, (l.map t).foldl min s.2.1, (l.map t).foldl max s.2.2) := by
  intro l
  induction l with
  | nil => intro _ s; simp
  | cons x rest ih =>
    intro hl s
    show rest.foldl _ (statsStep iterations s x (t x)) = _
    rw [ih (fun y hy => hl y (List.mem_cons_of_mem _ hy))]
    have hx : 0 < x := hl x (List.mem_cons_self _ _)
    simp only [statsStep, if_pos (Or.inl hx), List.map_cons, List.sum_cons,
      List.foldl_cons, Prod.mk.injEq, and_true, true_and]
    ring

/-! ## Claim theorems -/

/-- C1 counterexample: with `m = 1`, `n = 2`, `W = 1`, `K = 2` — a valid
configuration under the claim's stated bounds — the final far corner is `1`,
not `K*(n+m-2) = 2`: the grid has no interior, so the corner keeps its seeded
value across iterations. -/
theorem c1_cex :
    ¬(gridAfterW 1 2 1 2 (1 - 1) (2 - 1) = (2 : Int) * ((2 : Int) + (1 : Int) - 2)) := by
  decide

/-- C1 (amended: both grid dimensions must be at least 2; for degenerate
grids the corner keeps its seeded boundary value instead): for `1 ≤ W ≤ m`,
`m, n ≥ 2`, `K ≥ 1`, running the pipeline with the seeded boundaries, the
interior recurrence and the corner feedback yields far corner
`K * (n + m - 2)`. -/
theorem c1_corner (m n W K : Nat) (hW : 1 ≤ W) (hWm : W ≤ m)
    (hm : 2 ≤ m) (hn : 2 ≤ n) (hK : 1 ≤ K) :
    gridAfterW m n W K (m - 1) (n - 1) = (K : Int) * ((n : Int) + (m : Int) - 2) := by
  rw [gridAfterW_collapse hW hWm]
  rw [(gridAfterC_closed hm hn K).2.2]
  ring

/-- C1 witness: `m = n = 3`, `W = 2`, `K = 1` gives corner `1 * (3+3-2) = 4`. -/
theorem c1_witness :
    (1 ≤ 2 ∧ 2 ≤ 3 ∧ 2 ≤ 3 ∧ 2 ≤ 3 ∧ 1 ≤ 1)
    ∧ gridAfterW 3 3 2 1 (3 - 1) (3 - 1) = (1 : Int) * ((3 : Int) + (3 : Int) - 2) :=
  ⟨⟨by decide, by decide, by decide, by decide, le_rfl⟩,
    c1_corner 3 3 2 1 (by decide) (by decide) (by decide) (by decide) le_rfl⟩

/-- C3 counterexample: the degenerate grid `m = 2`, `n = 1` with `K = 2`
iterations (a valid configuration) fails the program's own verification:
the corner stays at the seeded value `1` but the expected value is `2`. -/
theorem c3_cex : runProgram 8 1000000 1 2 2 1 = RunResult.numericError := by
  rw [runProgram_of_valid (show validConfig 8 1000000 1 2 2 1 by decide)]
  have h1 : finalCornerZ 2 1 1 2 = 1 := by decide
  have h2 : (2:Int) * (1 + 2 - 2) = 2 := by decide
  rw [h1, h2]
  rw [if_pos (by norm_num [relDev, epsQ])]

/-- C3 (amended: degenerate grids do not fail exactly when one iteration is
requested, or when the grid is the single cell `m = n = 1`; the claim's
`n = 1` corner characterization holds unconditionally): for every valid
configuration with `m = 1` or `n = 1`, the column loop does nothing, so when
`n = 1` the far corner equals the seeded value `m - 1`; the run exits with
success when `K = 1` or `m = n = 1`, and fails its own numeric validation
whenever `K ≥ 2` and the grid has more than one cell. -/
theorem c3_degenerate (maxT memw W K m n : Int)
    (hv : validConfig maxT memw W K m n) (hdeg : m = 1 ∨ n = 1) :
    (n = 1 → finalCornerZ m n W K = m - 1)
    ∧ ((K = 1 ∨ (m = 1 ∧ n = 1)) → runProgram maxT memw W K m n = RunResult.success)
    ∧ ((2 ≤ K ∧ ¬(m = 1 ∧ n = 1)) →
        runProgram maxT memw W K m n = RunResult.numericError) := by
  obtain ⟨h1, h2, h3, h4, h5, h6, h7, h8⟩ := hv
  have hcornern1 : n = 1 → finalCornerZ m n W K = m - 1 := by
    intro hn1
    subst hn1
    unfold finalCornerZ
    have e1 : (1:Int).toNat = 1 := rfl
    rw [e1, show (1:Nat) - 1 = 0 from rfl]
    rw [gridAfterW_cols1 m.toNat W.toNat (by omega) K.toNat]
    omega
  refine ⟨hcornern1, ?_, ?_⟩
  · intro hcase
    rw [runProgram_of_valid ⟨h1, h2, h3, h4, h5, h6, h7, h8⟩]
    have hdev : relDev (finalCornerZ m n W K) (K * (n + m - 2)) = 0 := by
      rcases hdeg with hm1 | hn1
      · subst hm1
        rcases lt_or_le n 2 with hnlt | hn2
        · have hn1 : n = 1 := by omega
          subst hn1
          rw [hcornern1 rfl]
          have hcv : K * (1 + 1 - 2) = (1 : Int) - 1 := by ring
          rw [hcv]
          exact relDev_self _
        · have hK1 : K = 1 := by
            rcases hcase with hK1 | ⟨_, hn1⟩
            · exact hK1
            · omega
          subst hK1
          rw [finalCornerZ_m1 h1 h8 hn2 le_rfl]
          have hcv : (1 : Int) * (n + 1 - 2) = n - 1 := by ring
          rw [hcv]
          exact relDev_self _
      · subst hn1
        rw [hcornern1 rfl]
        rcases hcase with hK1 | ⟨hm1, _⟩
        · subst hK1
          have hcv : (1 : Int) * (1 + m - 2) = m - 1 := by ring
          rw [hcv]
          exact relDev_self _
        · subst hm1
          have hcv : K * (1 + 1 - 2) = (1 : Int) - 1 := by ring
          rw [hcv]
          exact relDev_self _
    rw [if_neg (by rw [hdev]; exact not_lt.mpr (le_of_lt epsQ_pos))]
  · rintro ⟨hK2, hnot11⟩
    rw [runProgram_of_valid ⟨h1, h2, h3, h4, h5, h6, h7, h8⟩]
    have hdev : epsQ < relDev (finalCornerZ m n W K) (K * (n + m - 2)) := by
      rcases hdeg with hm1 | hn1
      · subst hm1
        have hn1' : n ≠ 1 := fun h => hnot11 ⟨rfl, h⟩
        have hn2 : 2 ≤ n := by omega
        rw [finalCornerZ_m1 h1 h8 hn2 (by omega)]
        have hcv : K * (n + 1 - 2) = K * (n - 1) := by ring
        rw [hcv]
        exact relDev_scaled (by omega) hK2
      · subst hn1
        have hm1' : m ≠ 1 := fun h => hnot11 ⟨h, rfl⟩
        rw [hcornern1 rfl]
        have hcv : K * (1 + m - 2) = K * (m - 1) := by ring
        rw [hcv]
        exact relDev_scaled (by omega) hK2
    rw [if_pos hdev]

/-- C3 witness: `m = 2`, `n = 1`, `W = 1` is a valid degenerate
configuration; with `K = 1` the corner is the seeded `1` and the run
succeeds, while with `K = 2` the run fails its numeric validation. -/
theorem c3_witness :
    (validConfig 8 1000000 1 1 2 1 ∧ validConfig 8 1000000 1 2 2 1
      ∧ ((2:Int) = 1 ∨ (1:Int) = 1))
    ∧ (finalCornerZ 2 1 1 1 = 2 - 1
        ∧ runProgram 8 1000000 1 1 2 1 = RunResult.success
        ∧ runProgram 8 1000000 1 2 2 1 = RunResult.numericError) := by
  have h := c3_degenerate 8 1000000 1 1 2 1 (by decide) (Or.inr rfl)
  have h' := c3_degenerate 8 1000000 1 2 2 1 (by decide) (Or.inr rfl)
  exact ⟨⟨by decide, by decide, Or.inr rfl⟩, h.1 rfl, h.2.1 (Or.inl rfl),
    h'.2.2 ⟨by decide, by decide⟩⟩

/-- C4: on every configuration that passes the input checks, the program
reports a numeric-validation error exactly when the final far corner deviates
from `iterations*(n+m-2)` by more than the relative tolerance `1e-8`, and
reports success (validated solution) otherwise. -/
theorem c4_validation (maxT memw W K m n : Int) (h : validConfig maxT memw W K m n) :
    (runProgram maxT memw W K m n = RunResult.numericError
        ↔ epsQ < |(finalCornerZ m n W K : ℚ) - ((K * (n + m - 2) : Int) : ℚ)|
            / ((K * (n + m - 2) : Int) : ℚ))
    ∧ (runProgram maxT memw W K m n = RunResult.success
        ↔ |(finalCornerZ m n W K : ℚ) - ((K * (n + m - 2) : Int) : ℚ)|
            / ((K * (n + m - 2) : Int) : ℚ) ≤ epsQ) := by
  rw [runProgram_of_valid h, ← relDev_eq_abs]
  constructor
  · split_ifs with hd
    · exact iff_of_true rfl hd
    · exact iff_of_false (by simp) hd
  · split_ifs with hd
    · exact iff_of_false (by simp) (not_le.mpr hd)
    · exact iff_of_true rfl (not_lt.mp hd)

/-- C4 witness: `W = 1`, `K = 1`, `m = n = 2` passes the checks; the run
succeeds exactly because the deviation is within tolerance. -/
theorem c4_witness :
    validConfig 8 1000000 1 1 2 2
    ∧ (runProgram 8 1000000 1 1 2 2 = RunResult.success
        ↔ |(finalCornerZ 2 2 1 1 : ℚ) - ((1 * (2 + 2 - 2) : Int) : ℚ)|
            / ((1 * (2 + 2 - 2) : Int) : ℚ) ≤ epsQ) :=
  ⟨by decide, (c4_validation 8 1000000 1 1 2 2 (by decide)).2⟩

/-- C5: whenever `W > m`, or the true product `m*n` exceeds the configured
buffer capacity, or `m*n` overflows the 32-bit signed range, the program
stops with a configuration error (before any pipeline or timing work). -/
theorem c5_config_errors (maxT memw W K m n : Int)
    (h : m < W ∨ memw < m * n ∨ 2 ^ 31 ≤ m * n ∨ m * n < -(2 ^ 31)) :
    runProgram maxT memw W K m n = RunResult.configError := by
  unfold runProgram
  by_cases h1 : W < 1 ∨ maxT < W
  · rw [if_pos h1]
  rw [if_neg h1]
  by_cases h2 : K < 1
  · rw [if_pos h2]
  rw [if_neg h2]
  by_cases h3 : m < 1 ∨ n < 1
  · rw [if_pos h3]
  rw [if_neg h3]
  push_neg at h3
  by_cases h4 : (wrap32 (m * n)).tdiv n ≠ m ∨ memw < wrap32 (m * n)
  · rw [if_pos h4]
  rw [if_neg h4]
  push_neg at h4
  rcases h with hmw | hcap | hov | hneg2
  · rw [if_pos hmw]
  · exfalso
    have e2 : (2:Int) ^ 31 = 2147483648 := by norm_num
    have hpos : 0 < m * n := mul_pos (by omega) (by omega)
    rcases lt_or_le (m * n) (2 ^ 31) with hlt | hge
    · have hw := wrap32_eq_self (by omega) hlt
      omega
    · exact tdiv_ne_of_overflow h3.1 h3.2 (lt_of_lt_of_le (wrap32_lt (m * n)) hge) h4.1
  · exfalso
    exact tdiv_ne_of_overflow h3.1 h3.2 (lt_of_lt_of_le (wrap32_lt (m * n)) hov) h4.1
  · exfalso
    have e2 : (2:Int) ^ 31 = 2147483648 := by norm_num
    have hpos : 0 < m * n := mul_pos (by omega) (by omega)
    omega

/-- C5 witness: the spec's example `W = 5`, `m = 3` fails with a
configuration error. -/
theorem c5_witness :
    ((3:Int) < 5) ∧ runProgram 8 1000000 5 1 3 3 = RunResult.configError :=
  ⟨by decide, c5_config_errors 8 1000000 5 1 3 3 (Or.inl (by decide))⟩

/-- C6: for every `(m, n, iterations)` with `m ≥ 1`, running the sweep with
one worker and with `m` workers produces identical final grids: the strip
decomposition is transparent to the numeric outcome. -/
theorem c6_w1_eq_wm (m n K : Nat) (hm : 1 ≤ m) :
    gridAfterW m n 1 K = gridAfterW m n m K := by
  rw [gridAfterW_collapse le_rfl hm n K, gridAfterW_collapse hm le_rfl n K]

/-- C6 witness: the `3 × 4` grid after 2 iterations with 1 and with 3 workers. -/
theorem c6_witness : (1 ≤ 3) ∧ gridAfterW 3 4 1 2 = gridAfterW 3 4 3 2 :=
  ⟨by decide, c6_w1_eq_wm 3 4 2 (by decide)⟩

/-- C7: the timing harness drops the sample of iteration index 0 unless
exactly one iteration was requested; over the kept samples it accumulates the
running sum, running minimum (seeded with `366*24*3600`) and running maximum
(seeded with `0`), and reports the average as the sum divided by
`max(iterations-1, 1)`. -/
theorem c7_timing (iterations : Nat) (t : Nat → ℚ) (h : 1 ≤ iterations) :
    accumStats iterations t
      = ((keptSamples iterations t).sum,
          (keptSamples iterations t).foldl min 31622400,
          (keptSamples iterations t).foldl max 0)
    ∧ avgReported iterations t
        = (keptSamples iterations t).sum / ((max (iterations - 1) 1 : Nat) : ℚ) := by
  have hacc : accumStats iterations t
      = ((keptSamples iterations t).sum,
          (keptSamples iterations t).foldl min 31622400,
          (keptSamples iterations t).foldl max 0) := by
    by_cases h1 : iterations = 1
    · subst h1
      simp [keptSamples, accumStats, statsStep, statsInit,
        show List.range 1 = [0] from rfl, List.foldl_cons, List.foldl_nil]
    · unfold keptSamples
      rw [if_neg h1]
      have hrange : List.range iterations = 0 :: List.range' 1 (iterations - 1) := by
        rw [List.range_eq_range']
        rw [show iterations = (iterations - 1) + 1 by omega, List.range'_succ]
        norm_num
      unfold accumStats
      rw [hrange, List.foldl_cons]
      have hskip : statsStep iterations statsInit 0 (t 0) = statsInit := by
        simp [statsStep, h1]
      rw [hskip]
      rw [statsFold_pos iterations t _ (fun x hx => (List.mem_range'_1.mp hx).1) statsInit]
      simp [statsInit]
  exact ⟨hacc, by unfold avgReported; rw [hacc]⟩

/-- C7 witness: three iterations with samples `10, 11, 12` keep `11, 12`,
giving sum 23, and the reported average is `23/2`. -/
theorem c7_witness :
    (1 ≤ 3)
    ∧ (accumStats 3 (fun i => (i : ℚ) + 10)
        = ((keptSamples 3 (fun i => (i : ℚ) + 10)).sum,
            (keptSamples 3 (fun i => (i : ℚ) + 10)).foldl min 31622400,
            (keptSamples 3 (fun i => (i : ℚ) + 10)).foldl max 0)
      ∧ avgReported 3 (fun i => (i : ℚ) + 10)
          = (keptSamples 3 (fun i => (i : ℚ) + 10)).sum / ((max (3 - 1) 1 : Nat) : ℚ)) :=
  ⟨by decide, c7_timing 3 (fun i => (i : ℚ) + 10) (by decide)⟩

/-- C8: reporting derives its metrics from the minimum kept time only — the
printed throughput is `1e-6 * 2*(m-1)*(n-1) / mintime`, the verbose
synchronization rate is `(n-1)*(W-1) / mintime`, and the final line is the
claimed `Rate/Avg/Min/Max` format. -/
theorem c8_reporting (m n W iterations : Nat) (tm : Nat → ℚ) (r a mn mx : String)
    (hm : 1 ≤ m) (hn : 1 ≤ n) (hW : 1 ≤ W) :
    mflopsRate m n (mintimeOf iterations tm)
        = (1 / 1000000) * (2 * (((m:ℚ) - 1) * ((n:ℚ) - 1))) / mintimeOf iterations tm
    ∧ syncRate n W (mintimeOf iterations tm)
        = (((n:ℚ) - 1) * ((W:ℚ) - 1)) / mintimeOf iterations tm
    ∧ reportLine r a mn mx
        = "Rate (MFlops/s): " ++ r ++ ", Avg time (s): " ++ a ++ ", Min time (s): "
            ++ mn ++ ", Max time (s): " ++ mx ++ "\n" := by
  refine ⟨?_, ?_, ?_⟩
  · unfold mflopsRate
    rw [Nat.cast_mul, Nat.cast_sub hm, Nat.cast_sub hn, Nat.cast_one]
    ring
  · unfold syncRate
    rw [Nat.cast_mul, Nat.cast_sub hn, Nat.cast_sub hW, Nat.cast_one]
  · unfold reportLine
    simp [String.append_assoc]

/-- C8 witness: concrete sizes `m = 2`, `n = 3`, `W = 2` with constant
samples. -/
theorem c8_witness :
    (1 ≤ 2 ∧ 1 ≤ 3 ∧ 1 ≤ 2)
    ∧ (mflopsRate 2 3 (mintimeOf 2 (fun _ => 1))
        = (1 / 1000000) * (2 * (((2:ℚ) - 1) * ((3:ℚ) - 1))) / mintimeOf 2 (fun _ => 1)
      ∧ syncRate 3 2 (mintimeOf 2 (fun _ => 1))
          = (((3:ℚ) - 1) * ((2:ℚ) - 1)) / mintimeOf 2 (fun _ => 1)
      ∧ reportLine "r" "a" "mn" "mx"
          = "Rate (MFlops/s): " ++ "r" ++ ", Avg time (s): " ++ "a"
              ++ ", Min time (s): " ++ "mn" ++ ", Max time (s): " ++ "mx" ++ "\n") :=
  ⟨⟨by decide, by decide, by decide⟩,
    c8_reporting 2 3 2 2 (fun _ => 1) "r" "a" "mn" "mx" (by decide) (by decide) (by decide)⟩

/-- C9: after every completed run of `K ≥ 1` iterations on a grid with more
than one cell, the origin holds the negation of the final far corner (the
feedback runs after every iteration, including the last), so a validating
run leaves `cell(0,0) = -K*(n+m-2)`. -/
theorem c9_origin_feedback (m n W K : Nat) (hW : 1 ≤ W) (hWm : W ≤ m) (hn : 1 ≤ n)
    (hK : 1 ≤ K) (hcell : 1 < m * n) :
    gridAfterW m n W K 0 0 = -gridAfterW m n W K (m - 1) (n - 1)
    ∧ (gridAfterW m n W K (m - 1) (n - 1) = (K : Int) * ((n:Int) + (m:Int) - 2) →
        gridAfterW m n W K 0 0 = -((K : Int) * ((n:Int) + (m:Int) - 2))) := by
  have hne : ¬(m - 1 = 0 ∧ n - 1 = 0) := by
    intro hc
    have hmn : m * n ≤ 1 * 1 := Nat.mul_le_mul (by omega) (by omega)
    omega
  obtain ⟨K', rfl⟩ : ∃ K', K = K' + 1 := ⟨K - 1, by omega⟩
  have hstep : gridAfterW m n W (K' + 1)
      = feedback m n (sweepAllW m n W (gridAfterW m n W K')) := rfl
  have hmain : gridAfterW m n W (K' + 1) 0 0
      = -gridAfterW m n W (K' + 1) (m - 1) (n - 1) := by
    rw [hstep]
    unfold feedback
    rw [upd_self, upd_ne _ _ _ _ hne]
  exact ⟨hmain, fun hcv => by rw [hmain, hcv]⟩

/-- C9 witness: `m = n = 3`, `W = 1`, `K = 1`: the origin equals the negated
far corner. -/
theorem c9_witness :
    (1 ≤ 1 ∧ 1 ≤ 3 ∧ 1 ≤ 3 ∧ 1 ≤ 1 ∧ 1 < 9)
    ∧ gridAfterW 3 3 1 1 0 0 = -gridAfterW 3 3 1 1 (3 - 1) (3 - 1) :=
  ⟨⟨le_rfl, by decide, by decide, le_rfl, by decide⟩,
    (c9_origin_feedback 3 3 1 1 le_rfl (by decide) (by decide) le_rfl (by decide)).1⟩

/-- C10: every boundary cell other than the origin keeps its seeded value for
the whole run: row-0 cells `(0,j)` with `j ≥ 1` stay `j`, and column-0 cells
`(i,0)` with `i ≥ 1` stay `i`, because the compute loop writes only rows
`i ≥ 1` of columns `j ≥ 1` and the feedback writes only the origin. -/
theorem c10_boundary_frame (m n W K : Nat) (hW : 1 ≤ W) (hWm : W ≤ m) :
    (∀ j, 1 ≤ j → j ≤ n - 1 → gridAfterW m n W K 0 j = (j : Int))
    ∧ (∀ i, 1 ≤ i → i ≤ m - 1 → gridAfterW m n W K i 0 = (i : Int)) := by
  rw [gridAfterW_collapse hW hWm]
  exact ⟨fun j hj _ => gridAfterC_row0 m n K j hj,
    fun i hi _ => gridAfterC_col0 m n K i hi⟩

/-- C10 witness: on the `3 × 3` grid with 2 workers after 2 iterations,
cell `(0,2)` still holds `2` and cell `(1,0)` still holds `1`. -/
theorem c10_witness :
    (1 ≤ 2 ∧ 2 ≤ 3 ∧ 1 ≤ 2 ∧ 2 ≤ 3 - 1 ∧ 1 ≤ 1 ∧ 1 ≤ 3 - 1)
    ∧ gridAfterW 3 3 2 2 0 2 = (2 : Int) ∧ gridAfterW 3 3 2 2 1 0 = (1 : Int) :=
  ⟨⟨by decide, by decide, by decide, by decide, le_rfl, by decide⟩,
    (c10_boundary_frame 3 3 2 2 (by decide) (by decide)).1 2 (by decide) (by decide),
    (c10_boundary_frame 3 3 2 2 (by decide) (by decide)).2 1 le_rfl (by decide)⟩

end P2P
